import Mathlib

/-!
# Verification of the yt-clipper core logic

Shallow embedding of the pure core of the yt-clipper Rust crate
(`src/lib.rs`, `src/crop.rs`, `src/subtitle.rs`).

Modelling conventions:
* Rust `f64` values are modelled as exact rationals (`ℚ`).  Every concrete
  input used in a witness or counterexample below is a value on which the
  compiled double-precision computation is exact (dyadic fractions, small
  integers), so the rational model agrees with the program there.
* Rust `as u32` casts (which truncate toward zero and saturate) are modelled
  by `Int.toNat ∘ Int.floor`, which agrees on the range `[0, 2^32)` actually
  reached by clip times.
* External shell-outs (yt-dlp, ffmpeg, whisper) are modelled as oracle
  parameters; the file system is modelled as an association list from file
  names to file contents.
* JSON access patterns (`Value::get`, `as_i64`, `as_str`, ...) are modelled
  by structures with `Option` fields mirroring exactly the fields the code
  reads.
-/

namespace YtClipper

/-- Constant MIN_SCORE from src/lib.rs. -/
def MIN_SCORE : ℚ := 40 / 100

/-- Constant MAX_DURATION from src/lib.rs. -/
def MAX_DURATION : ℚ := 60

/-- Constant PADDING from src/lib.rs (extra seconds added before and after). -/
def PADDING : ℚ := 10

/-- Constant MAX_CLIPS from src/lib.rs. -/
def MAX_CLIPS : ℕ := 10

/-- Structure HeatmapSegment from src/lib.rs; the three f64 fields are
modelled as rationals. -/
structure HeatmapSegment where
  start : ℚ
  duration : ℚ
  score : ℚ
deriving DecidableEq

/-! ## WindowCalculator: the window computation at the head of process_clip -/

/-- Window start computed by process_clip (src/lib.rs):
`let start = (start_original - PADDING).max(0.0)`. -/
def clipStart (segment : HeatmapSegment) : ℚ :=
  max (segment.start - PADDING) 0

/-- Window end computed by process_clip (src/lib.rs):
`let end = (end_original + PADDING).min(total_duration as f64)` where
`end_original = segment.start + segment.duration`. -/
def clipEnd (segment : HeatmapSegment) (total_duration : ℕ) : ℚ :=
  min (segment.start + segment.duration + PADDING) (total_duration : ℚ)

/-- The early-exit test in process_clip: `if end - start < 3.0 { return Ok(false) }`.
A `true` result means the candidate is skipped (a non-error skip). -/
def windowRejected (segment : HeatmapSegment) (total_duration : ℕ) : Bool :=
  decide (clipEnd segment total_duration - clipStart segment < 3)

/-! ## SegmentSelector: the marker-processing core of fetch_heatmap -/

/-- A JSON value in one of the numeric marker fields, as seen by the
`parse_val` closure in fetch_heatmap: a JSON number (whose `as_f64` always
succeeds), a JSON string together with the result of `s.parse::<f64>()`,
or any other JSON value. -/
inductive JsonVal where
  | num (q : ℚ)
  | str (parsed : Option ℚ)
  | other
deriving DecidableEq

/-- The `parse_val` closure of fetch_heatmap (src/lib.rs): numbers via
`as_f64`, strings via `parse().ok()`, anything else is `None`. -/
def parse_val : JsonVal → Option ℚ
  | .num q => some q
  | .str p => p
  | .other => none

/-- The three fields fetch_heatmap reads from a marker object; `none`
models an absent key. -/
structure MarkerFields where
  startMillis : Option JsonVal
  durationMillis : Option JsonVal
  intensityScoreNormalized : Option JsonVal
deriving DecidableEq

/-- A raw marker: fetch_heatmap unwraps a `heatMarkerRenderer` wrapper if
present, otherwise uses the marker object itself. -/
structure RawMarker where
  heatMarkerRenderer : Option MarkerFields
  fields : MarkerFields
deriving DecidableEq

/-- The unwrap step of fetch_heatmap:
`if let Some(renderer) = marker.get("heatMarkerRenderer") { renderer } else { marker }`. -/
def markerData (marker : RawMarker) : MarkerFields :=
  marker.heatMarkerRenderer.getD marker.fields

/-- The per-marker body of the fetch_heatmap loop (src/lib.rs, lines 114-151):
require all three fields present, parse the score with fallback 0.0, filter by
`score >= MIN_SCORE`, parse start/duration with fallback 0.0, convert millis
to seconds and cap the duration at MAX_DURATION. -/
def markerToSegment (marker : RawMarker) : Option HeatmapSegment :=
  let data := markerData marker
  match data.startMillis, data.durationMillis, data.intensityScoreNormalized with
  | some start_val, some duration_val, some score_val =>
    let score := (parse_val score_val).getD 0
    if MIN_SCORE ≤ score then
      let start_millis := (parse_val start_val).getD 0
      let duration_millis := (parse_val duration_val).getD 0
      some { start := start_millis / 1000
             duration := min (duration_millis / 1000) MAX_DURATION
             score := score }
    else
      none
  | _, _, _ => none

/-- The comparator of the final sort in fetch_heatmap, as a boolean `le`:
Rust sorts with `b.score.partial_cmp(&a.score).unwrap_or(Equal)`, i.e. the
sort is ascending in that comparator, which means `a` may precede `b`
exactly when `b.score ≤ a.score` (on `ℚ` the comparison is never `None`). -/
def scoreDescLe (a b : HeatmapSegment) : Bool :=
  decide (b.score ≤ a.score)

/-- The pure core of fetch_heatmap (src/lib.rs): the marker loop followed by
the stable descending sort by score.  Rust's `sort_by` is a stable sort; it
is modelled by the stable `List.mergeSort` (any stable sort for a total
preorder produces the same list). -/
def fetch_heatmap (markers : List RawMarker) : List HeatmapSegment :=
  (markers.filterMap markerToSegment).mergeSort scoreDescLe

/-! ## FilterGraphSynthesizer: src/crop.rs -/

/-- Constant TOP_HEIGHT from src/crop.rs. -/
def TOP_HEIGHT : ℕ := 960

/-- Constant BOTTOM_HEIGHT from src/crop.rs. -/
def BOTTOM_HEIGHT : ℕ := 350

/-- Constant OUTPUT_WIDTH from src/crop.rs. -/
def OUTPUT_WIDTH : ℕ := 720

/-- Constant OUTPUT_HEIGHT from src/crop.rs. -/
def OUTPUT_HEIGHT : ℕ := 1280

/-- Enum CropMode from src/crop.rs. -/
inductive CropMode where
  | Default
  | SplitLeft
  | SplitRight
deriving DecidableEq

/-- CropMode::get_ffmpeg_filter from src/crop.rs.  In the Rust source each
arm is a `format!` template instantiated with the four layout constants; the
backslash-newline pairs in the Rust string literals splice the lines
together without inserting whitespace. -/
def CropMode.get_ffmpeg_filter : CropMode → String
  | .Default =>
      s!"scale={OUTPUT_WIDTH}:{OUTPUT_HEIGHT}:force_original_aspect_ratio=increase,crop={OUTPUT_WIDTH}:{OUTPUT_HEIGHT}"
  | .SplitLeft =>
      s!"scale=-2:{OUTPUT_HEIGHT}[scaled];[scaled]split=2[s1][s2];[s1]crop={OUTPUT_WIDTH}:{TOP_HEIGHT}:(iw-{OUTPUT_WIDTH})/2:(ih-{TOP_HEIGHT})/2[top];[s2]crop={OUTPUT_WIDTH}:{BOTTOM_HEIGHT}:0:ih-{BOTTOM_HEIGHT}[bottom];[top][bottom]vstack=inputs=2[out]"
  | .SplitRight =>
      s!"scale=-2:{OUTPUT_HEIGHT}[scaled];[scaled]split=2[s1][s2];[s1]crop={OUTPUT_WIDTH}:{TOP_HEIGHT}:(iw-{OUTPUT_WIDTH})/2:(ih-{TOP_HEIGHT})/2[top];[s2]crop={OUTPUT_WIDTH}:{BOTTOM_HEIGHT}:iw-{OUTPUT_WIDTH}:ih-{BOTTOM_HEIGHT}[bottom];[top][bottom]vstack=inputs=2[out]"

/-- CropMode::is_complex_filter from src/crop.rs:
`matches!(self, CropMode::SplitLeft | CropMode::SplitRight)`. -/
def CropMode.is_complex_filter : CropMode → Bool
  | .SplitLeft => true
  | .SplitRight => true
  | .Default => false

/-- Everything of the two split-mode filter strings up to the x-offset of the
bottom (facecam) crop; used to state in what way the SplitLeft and SplitRight
filters differ. -/
def bottomCropLead : String :=
  "scale=-2:1280[scaled];[scaled]split=2[s1][s2];[s1]crop=720:960:(iw-720)/2:(ih-960)/2[top];[s2]crop=720:350:"

/-- Everything of the two split-mode filter strings after the x-offset of the
bottom (facecam) crop. -/
def bottomCropTail : String :=
  ":ih-350[bottom];[top][bottom]vstack=inputs=2[out]"

/-! ## CaptionRenderer time formatting: format_ass_time in src/subtitle.rs -/

/-- Rust `as u32` conversion from f64, for the non-negative values the
formatter receives: truncation toward zero (negative inputs saturate to 0,
matching Rust; values at or above 2^32 are not modelled). -/
def ratToU32 (q : ℚ) : ℕ :=
  (⌊q⌋).toNat

/-- Rust f64 `%` for a non-negative dividend and positive divisor (the only
use sites in format_ass_time): `x - y * trunc(x / y)`. -/
def fmod (x y : ℚ) : ℚ :=
  x - y * ((⌊x / y⌋ : ℤ) : ℚ)

/-- The Rust `{:02}` format specifier on a small unsigned value: left-pad
with zeros to width two. -/
def pad2 (n : ℕ) : String :=
  if n < 10 then "0" ++ toString n else toString n

/-- Function format_ass_time from src/subtitle.rs:
`h = (seconds / 3600.0) as u32`, `m = ((seconds % 3600.0) / 60.0) as u32`,
`s = (seconds % 60.0) as u32`, `cs = ((seconds % 1.0) * 100.0) as u32`,
rendered as `"{}:{:02}:{:02}.{:02}"`. -/
def format_ass_time (seconds : ℚ) : String :=
  let h := ratToU32 (seconds / 3600)
  let m := ratToU32 (fmod seconds 3600 / 60)
  let s := ratToU32 (fmod seconds 60)
  let cs := ratToU32 (fmod seconds 1 * 100)
  toString h ++ ":" ++ pad2 m ++ ":" ++ pad2 s ++ "." ++ pad2 cs

/-- Modelled from the spec: the serialization shape the spec describes for
time values, `H:MM:SS.cc` with hours unpadded and the other fields
zero-padded, parameterized by how the centisecond field is computed from the
seconds value.  Used to compare the code against the spec sentence. -/
def format_time_of_cs (cs_of : ℚ → ℕ) (seconds : ℚ) : String :=
  let h := (⌊seconds / 3600⌋).toNat
  let m := (⌊seconds / 60⌋).toNat % 60
  let s := (⌊seconds⌋).toNat % 60
  toString h ++ ":" ++ pad2 m ++ ":" ++ pad2 s ++ "." ++ pad2 (cs_of seconds)

/-- Modelled from the spec: centiseconds computed as
`round(fractional_seconds * 100)`, exactly as the spec sentence says. -/
def format_time_spec_round (seconds : ℚ) : String :=
  format_time_of_cs (fun q => (round ((q - (⌊q⌋ : ℚ)) * 100)).toNat) seconds

/-- The amended serialization: centiseconds computed by truncating
`fractional_seconds * 100` (what the `as u32` cast in the code does). -/
def format_time_spec_trunc (seconds : ℚ) : String :=
  format_time_of_cs (fun q => (⌊(q - (⌊q⌋ : ℚ)) * 100⌋).toNat) seconds

/-! ## TranscriptParser: parse_whisper_json in src/subtitle.rs -/

/-- Structure TimedWord from src/subtitle.rs (text with start/end seconds). -/
structure TimedWord where
  text : String
  start : ℚ
  «end» : ℚ
deriving DecidableEq

/-- The fields parse_whisper_json reads from one element of a segment's
`tokens` array.  A `none` models an absent key or a value on which the
`as_str`/`as_i64` conversion fails. -/
structure WhisperToken where
  text : Option String
  t0 : Option ℤ
  t1 : Option ℤ
  offsets_from : Option ℤ
  offsets_to : Option ℤ
deriving DecidableEq

/-- The fields parse_whisper_json reads from one element of the
`transcription` array: an optional `tokens` array, and the segment-level
`text` and `timestamps.from` / `timestamps.to` strings. -/
structure WhisperSegment where
  tokens : Option (List WhisperToken)
  text : Option String
  timestamps_from : Option String
  timestamps_to : Option String
deriving DecidableEq

/-- Rust `str::starts_with(char)`: the first character equals `c`.  (The
library `String.startsWith` is defined through byte positions and does not
reduce in the kernel; this structural version is used instead.) -/
def startsWithChar (s : String) (c : Char) : Bool :=
  match s.data with
  | [] => false
  | d :: _ => d = c

/-- Rust `str::ends_with(char)`: the last character equals `c`. -/
def endsWithChar (s : String) (c : Char) : Bool :=
  match s.data.getLast? with
  | none => false
  | some d => d = c

/-- Rust `str::trim`: drop leading and trailing whitespace characters. -/
def strTrim (s : String) : String :=
  String.mk ((s.data.dropWhile Char.isWhitespace).reverse.dropWhile Char.isWhitespace).reverse

/-- Rust `str::is_empty`. -/
def strIsEmpty (s : String) : Bool :=
  s.data.isEmpty

/-- Splitting a character sequence at every occurrence of a separator test,
keeping empty pieces — the behaviour of Rust `str::split`. -/
def splitOnPred (p : Char → Bool) : List Char → List (List Char)
  | [] => [[]]
  | c :: cs =>
    let rest := splitOnPred p cs
    if p c then [] :: rest
    else
      match rest with
      | [] => [[c]]
      | h :: t => (c :: h) :: t

/-- Decimal-literal core of Rust `str::parse::<f64>()`: one or more ASCII
digits.  Inputs of any other shape (signs, exponents, `inf`, ...) do not
occur in whisper timestamp fields and are modelled as unparsable. -/
def digitsToNat : List Char → Option ℕ
  | [] => none
  | cs =>
    cs.foldl
      (fun acc c =>
        match acc with
        | some n => if c.isDigit then some (10 * n + (c.toNat - 48)) else none
        | none => none)
      (some 0)

/-- Rust `str::parse::<f64>()` on the plain decimal literals occurring in
whisper timestamps: `DIGITS` or `DIGITS.DIGITS`, exact as a rational. -/
def parseDecimal (cs : List Char) : Option ℚ :=
  match splitOnPred (fun c => c = '.') cs with
  | [ip] => (digitsToNat ip).map (fun n => (n : ℚ))
  | [ip, fp] =>
    match digitsToNat ip, digitsToNat fp with
    | some i, some f => some ((i : ℚ) + (f : ℚ) / ((10 : ℚ) ^ fp.length))
    | _, _ => none
  | _ => none

/-- The nested helper parse_ts of parse_whisper_json (src/subtitle.rs):
replace the comma decimal separator with a period, split on colons, require
exactly three parts, parse each as f64 and combine `h * 3600 + m * 60 + s`. -/
def parse_ts (s : String) : Option ℚ :=
  let cs := s.data.map (fun c => if c = ',' then '.' else c)
  match splitOnPred (fun c => c = ':') cs with
  | [p0, p1, p2] =>
    match parseDecimal p0, parseDecimal p1, parseDecimal p2 with
    | some h, some m, some sec => some (h * 3600 + m * 60 + sec)
    | _, _, _ => none
  | _ => none

/-- The token-text filter used on the two token-level paths of
parse_whisper_json: keep a trimmed token iff it is non-empty and does not
start with a bracket or an angle bracket. -/
def keepToken (text : String) : Bool :=
  !strIsEmpty text && !startsWithChar text '[' && !startsWithChar text '<'

/-- The per-token body of parse_whisper_json: first the `t0`/`t1`
centisecond form, otherwise the `offsets.from`/`offsets.to` millisecond
form; in both cases the text is trimmed and filtered by `keepToken`. -/
def tokenToWord (token : WhisperToken) : Option TimedWord :=
  match token.text, token.t0, token.t1 with
  | some text, some t0, some t1 =>
    let text := strTrim text
    if keepToken text then
      some { text := text, start := (t0 : ℚ) / 100, «end» := (t1 : ℚ) / 100 }
    else
      none
  | _, _, _ =>
    match token.text, token.offsets_from, token.offsets_to with
    | some text, some f, some t =>
      let text := strTrim text
      if keepToken text then
        some { text := text, start := (f : ℚ) / 1000, «end» := (t : ℚ) / 1000 }
      else
        none
    | _, _, _ => none

/-- Rust `str::split_whitespace`: the non-empty maximal runs of
non-whitespace characters. -/
def splitWhitespace (text : String) : List String :=
  ((splitOnPred Char.isWhitespace text.data).filter (fun w => !w.isEmpty)).map String.mk

/-- The segment-level fallback of parse_whisper_json (src/subtitle.rs,
lines 346-387): parse the two human timestamps, split the segment text on
whitespace, divide the duration evenly, and keep each word unless it is
empty after trimming or starts with a bracket (note: this path does not
test for a leading angle bracket). -/
def fallbackWords (text t0 t1 : String) : List TimedWord :=
  match parse_ts t0, parse_ts t1 with
  | some start, some stop =>
    let segment_words := splitWhitespace text
    let duration := stop - start
    let word_duration := duration / (max segment_words.length 1 : ℕ)
    segment_words.enum.filterMap fun p =>
      let word_text := strTrim p.2
      if !strIsEmpty word_text && !startsWithChar word_text '[' then
        some { text := word_text
               start := start + (p.1 : ℚ) * word_duration
               «end» := start + ((p.1 : ℚ) + 1) * word_duration }
      else
        none
  | _, _ => []

/-- One segment of the `transcription` array, as processed by
parse_whisper_json: the token-level paths if a `tokens` array exists,
otherwise the segment-level fallback; unmatched entries are skipped. -/
def segmentWords (segment : WhisperSegment) : List TimedWord :=
  match segment.tokens with
  | some tokens => tokens.filterMap tokenToWord
  | none =>
    match segment.text, segment.timestamps_from, segment.timestamps_to with
    | some text, some t0, some t1 => fallbackWords text t0 t1
    | _, _, _ => []

/-- Function parse_whisper_json from src/subtitle.rs, modelled from the
`transcription` array down (reading the file and parsing the JSON container
are I/O; a malformed container is the fatal error path and never reaches
this loop). -/
def parse_whisper_json (transcription : List WhisperSegment) : List TimedWord :=
  (transcription.map segmentWords).flatten

/-! ## PhraseGrouper: the grouping pass of generate_ass_with_word_highlight -/

/-- The punctuation break test of the grouping loop in
generate_ass_with_word_highlight (src/subtitle.rs): the word text ends with
a period, comma, question mark or exclamation mark. -/
def endsWithBreakPunct (text : String) : Bool :=
  endsWithChar text '.' || endsWithChar text ',' || endsWithChar text '?' || endsWithChar text '!'

/-- Loop state of the grouping pass: finished phrases, the phrase being
accumulated, and the running character count (`current_chars`). -/
structure GroupSt where
  phrases : List (List TimedWord)
  current : List TimedWord
  chars : ℕ
deriving DecidableEq

/-- One iteration of the grouping loop (src/subtitle.rs, lines 437-455):
push the word, add `text.len() + 1` to the running character count, and
close the phrase when the word count reaches 3 (`max_words_per_phrase`),
the character count reaches 20 (`max_chars_per_phrase`), or the word ends
in break punctuation.  Rust `str::len` is the UTF-8 byte length. -/
def groupStep (st : GroupSt) (word : TimedWord) : GroupSt :=
  let current := st.current ++ [word]
  let chars := st.chars + word.text.utf8ByteSize + 1
  if 3 ≤ current.length ∨ 20 ≤ chars ∨ endsWithBreakPunct word.text = true then
    { phrases := st.phrases ++ [current], current := [], chars := 0 }
  else
    { phrases := st.phrases, current := current, chars := chars }

/-- The full grouping pass: fold the loop body over the words and emit the
trailing partial phrase when it is non-empty. -/
def groupIntoPhrases (words : List TimedWord) : List (List TimedWord) :=
  let st := words.foldl groupStep { phrases := [], current := [], chars := 0 }
  if st.current.isEmpty then st.phrases else st.phrases ++ [st.current]

/-- Character weight of a phrase as accumulated by the loop: the sum of
`text.len() + 1` over its words. -/
def phraseChars (p : List TimedWord) : ℕ :=
  (p.map (fun w => w.text.utf8ByteSize + 1)).sum

/-- Text of the last word of a phrase (empty for an empty phrase). -/
def lastText (p : List TimedWord) : String :=
  ((p.getLast?).map TimedWord.text).getD ""

/-- The break condition, evaluated on a whole phrase: it has reached 3
words, its accumulated character count has reached 20, or its last word
ends in break punctuation. -/
def phraseCloseCond (p : List TimedWord) : Prop :=
  3 ≤ p.length ∨ 20 ≤ phraseChars p ∨ endsWithBreakPunct (lastText p) = true

instance (p : List TimedWord) : Decidable (phraseCloseCond p) := by
  unfold phraseCloseCond; infer_instance

/-! ## ClipPipelineOrchestrator: the candidate loop of full_process -/

/-- The file name pushed for a successful clip in full_process:
`format!("clip_{}.mp4", index)`. -/
def clipName (index : ℕ) : String :=
  s!"clip_{index}.mp4"

/-- The candidate loop of full_process (src/lib.rs, lines 352-365), with the
whole of process_clip abstracted as an oracle `o segment index` telling
whether the candidate succeeded (`Ok(true)`); `Ok(false)` and `Err` are both
skips under `if let Ok(true)`.  The second argument is `success_count`. -/
def clipLoop (o : HeatmapSegment → ℕ → Bool) : List HeatmapSegment → ℕ → List String
  | [], _ => []
  | segment :: rest, success_count =>
    if MAX_CLIPS ≤ success_count then []
    else if o segment (success_count + 1) then
      clipName (success_count + 1) :: clipLoop o rest (success_count + 1)
    else
      clipLoop o rest success_count

/-- The candidates the loop actually hands to process_clip, in order (same
recursion structure as clipLoop). -/
def clipAttempts (o : HeatmapSegment → ℕ → Bool) :
    List HeatmapSegment → ℕ → List HeatmapSegment
  | [], _ => []
  | segment :: rest, success_count =>
    if MAX_CLIPS ≤ success_count then []
    else if o segment (success_count + 1) then
      segment :: clipAttempts o rest (success_count + 1)
    else
      segment :: clipAttempts o rest success_count

/-! ## Degradation on caption failure: process_subtitle and the tail of
process_clip -/

/-- A file system as an association list from names to contents; external
tool effects are restricted to the operations the code performs on it. -/
abbrev FS := List (String × String)

/-- Lookup, modelling `Path::exists` / reading a file. -/
def fsGet (fs : FS) (name : String) : Option String :=
  (List.find? (fun e => e.1 = name) fs).map (fun e => e.2)

/-- Remove a file (`fs::remove_file`, error ignored at all call sites). -/
def fsRemove (fs : FS) (name : String) : FS :=
  List.filter (fun e => !(e.1 = name : Bool)) fs

/-- Create or overwrite a file with given contents. -/
def fsWrite (fs : FS) (name content : String) : FS :=
  (fsRemove fs name) ++ [(name, content)]

/-- Rust `fs::rename`: fails if the source is missing, overwrites an
existing destination. -/
def fsRename (fs : FS) (src dst : String) : Option FS :=
  match fsGet fs src with
  | some content => some (fsWrite (fsRemove fs src) dst content)
  | none => none

/-- Backend enum from src/subtitle.rs (only the field process_subtitle
branches on). -/
inductive SubtitleBackend where
  | WhisperCpp
  | FasterWhisper
deriving DecidableEq

/-- The part of SubtitleConfig that process_subtitle consults. -/
structure SubtitleConfigM where
  enabled : Bool
  backend : SubtitleBackend
deriving DecidableEq

/-- Outcomes of the two external subtitle stages for one candidate:
whether generate_subtitle succeeds (and with what subtitle-script contents),
whether burn_subtitle succeeds, and what contents a successful burn writes
(a function of the video and the script, abstracting ffmpeg). -/
structure SubOracle where
  genResult : Option String
  burnOk : Bool
  burnContent : String → String → String

/-- The temporary subtitle file name chosen by process_subtitle:
`temp_{index}.ass` for whisper.cpp, `temp_{index}.srt` for faster-whisper. -/
def subFileName (config : SubtitleConfigM) (index : ℕ) : String :=
  match config.backend with
  | .WhisperCpp => s!"temp_{index}.ass"
  | .FasterWhisper => s!"temp_{index}.srt"

/-- Function process_subtitle from src/subtitle.rs (lines 919-963), with the
external generate_subtitle / burn_subtitle stages given by the oracle.
Returns the final file system and `some output_file` for `Ok`, or `none`
for the `Err` path (which in the code can only arise from a failing
`fs::rename`, i.e. a missing cropped file). -/
def process_subtitle (fs : FS) (cropped_file output_file : String)
    (config : SubtitleConfigM) (index : ℕ) (o : SubOracle) :
    FS × Option String :=
  if config.enabled = false then
    match fsRename fs cropped_file output_file with
    | some fs1 => (fs1, some output_file)
    | none => (fs, none)
  else
    let sub_file := subFileName config index
    match o.genResult with
    | some sub_content =>
      let fs1 := fsWrite fs sub_file sub_content
      if o.burnOk then
        let video_content := (fsGet fs1 cropped_file).getD ""
        let fs2 := fsWrite fs1 output_file (o.burnContent video_content sub_content)
        let fs3 := fsRemove (fsRemove fs2 cropped_file) sub_file
        (fs3, some output_file)
      else
        let fs2 := fsRemove fs1 sub_file
        match fsRename fs2 cropped_file output_file with
        | some fs3 => (fs3, some output_file)
        | none => (fs2, none)
    | none =>
      match fsRename fs cropped_file output_file with
      | some fs1 => (fs1, some output_file)
      | none => (fs, none)

/-- The step-3 tail of process_clip (src/lib.rs, lines 302-319): on an `Ok`
from process_subtitle the clip is a success; on `Err`, if the cropped file
still exists it is renamed to the output path and the clip still counts as a
success, otherwise the candidate fails.  Returns the final file system and
the boolean process_clip returns. -/
def process_clip_finalize (fs : FS) (cropped_file output_file : String)
    (config : SubtitleConfigM) (index : ℕ) (o : SubOracle) : FS × Bool :=
  match process_subtitle fs cropped_file output_file config index o with
  | (fs1, some _) => (fs1, true)
  | (fs1, none) =>
    match fsRename fs1 cropped_file output_file with
    | some fs2 => (fs2, true)
    | none => (fs1, false)

/-- Invariant of the grouping-loop state: the running character counter
agrees with the accumulated phrase, and no non-empty prefix of the
accumulated phrase (the phrase itself included) satisfies the break
condition — otherwise it would already have been closed. -/
def stOk (st : GroupSt) : Prop :=
  st.chars = phraseChars st.current ∧
  ∀ k, 0 < k → k ≤ st.current.length → ¬ phraseCloseCond (st.current.take k)

/-- What holds of every phrase the loop has closed: non-empty, at most three
words, the break condition fired exactly at its last word and at no earlier
word. -/
def phraseOk (p : List TimedWord) : Prop :=
  p ≠ [] ∧ p.length ≤ 3 ∧ phraseCloseCond p ∧
    ∀ k, 0 < k → k < p.length → ¬ phraseCloseCond (p.take k)

/-! ## Theorems -/

/-- Counterexample to C1 as stated: for the segment with start 100,
duration 0, score 1 and a total duration of 50 seconds, the computed window
is (90, 50), so the claimed invariant `start ≤ end` fails (the candidate is
nevertheless rejected by the 3-second test, not an error). -/
theorem C1_counterexample :
    ¬ (clipStart ⟨100, 0, 1⟩ ≤ clipEnd ⟨100, 0, 1⟩ 50) := by
  norm_num [clipStart, clipEnd, PADDING]

/-- C1 (amended): for every segment and total duration, process_clip's
window is `start = max(segment.start − PADDING, 0)` and
`end = min(segment.start + segment.duration + PADDING, totalDuration)`;
it always satisfies `0 ≤ start` and `end ≤ totalDuration`; whenever the
window is not rejected it also satisfies `start ≤ end`; and whenever
`end − start < 3` the candidate is rejected (process_clip reports a skip,
not an error). -/
theorem C1_window (segment : HeatmapSegment) (total_duration : ℕ) :
    clipStart segment = max (segment.start - PADDING) 0 ∧
    clipEnd segment total_duration
      = min (segment.start + segment.duration + PADDING) (total_duration : ℚ) ∧
    0 ≤ clipStart segment ∧
    clipEnd segment total_duration ≤ (total_duration : ℚ) ∧
    (windowRejected segment total_duration = false →
      clipStart segment ≤ clipEnd segment total_duration) ∧
    (clipEnd segment total_duration - clipStart segment < 3 →
      windowRejected segment total_duration = true) := by
  refine ⟨rfl, rfl, le_max_right _ _, min_le_right _ _, ?_, ?_⟩
  · intro h
    have h3 : ¬ (clipEnd segment total_duration - clipStart segment < 3) := by
      simpa [windowRejected] using h
    linarith [not_lt.mp h3]
  · intro h
    simp [windowRejected, h]

/-- Witness for C1_window, at the segment (20, 30, 1) with total duration
100: its window is accepted, hence ordered. -/
theorem C1_window_witness :
    windowRejected ⟨20, 30, 1⟩ 100 = false ∧
    clipStart ⟨20, 30, 1⟩ ≤ clipEnd ⟨20, 30, 1⟩ 100 :=
  have hr : windowRejected ⟨20, 30, 1⟩ 100 = false := by
    norm_num [windowRejected, clipStart, clipEnd, PADDING]
  ⟨hr, (C1_window ⟨20, 30, 1⟩ 100).2.2.2.2.1 hr⟩

/-- C7: the filter synthesizer is a plain function of the mode (hence two
calls with equal modes give byte-identical text); the SplitLeft and
SplitRight filter strings differ only in the x-offset term of the bottom
(facecam) crop — 0 versus iw-720 — sharing everything before and after it;
and is_complex_filter holds exactly for the two split modes. -/
theorem C7_filter_strings :
    CropMode.get_ffmpeg_filter .SplitLeft = bottomCropLead ++ "0" ++ bottomCropTail ∧
    CropMode.get_ffmpeg_filter .SplitRight = bottomCropLead ++ "iw-720" ++ bottomCropTail ∧
    ∀ m : CropMode, m.is_complex_filter = true ↔ (m = .SplitLeft ∨ m = .SplitRight) := by
  refine ⟨by decide, by decide, ?_⟩
  intro m
  cases m <;> simp [CropMode.is_complex_filter]

/-- The clip list produced by the full_process loop, started at success
count n, is exactly the consecutively numbered names starting at n+1. -/
theorem clipLoop_eq_range (o : HeatmapSegment → ℕ → Bool) :
    ∀ (segments : List HeatmapSegment) (n : ℕ),
      clipLoop o segments n
        = (List.range' (n + 1) (clipLoop o segments n).length).map clipName := by
  intro segments
  induction segments with
  | nil => intro n; simp [clipLoop]
  | cons s rest ih =>
    intro n
    rw [clipLoop]
    split
    · simp
    · split
      · rw [ih (n + 1)]
        simp [List.range']
      · exact ih n

/-- C10: the file list returned by the candidate loop of full_process is
exactly clip_1.mp4, ..., clip_k.mp4 for k the number of successes, with
consecutive indices and no gaps (each index is the success count plus one,
so skipped candidates leave no hole). -/
theorem C10_consecutive_numbering (o : HeatmapSegment → ℕ → Bool)
    (segments : List HeatmapSegment) :
    clipLoop o segments 0
      = (List.range' 1 (clipLoop o segments 0).length).map clipName :=
  clipLoop_eq_range o segments 0

/-- The loop attempts an initial prefix of the candidate list: candidates
are processed one at a time, in order, none twice. -/
theorem clipAttempts_take (o : HeatmapSegment → ℕ → Bool) :
    ∀ (segments : List HeatmapSegment) (n : ℕ),
      clipAttempts o segments n
        = segments.take (clipAttempts o segments n).length := by
  intro segments
  induction segments with
  | nil => intro n; simp [clipAttempts]
  | cons s rest ih =>
    intro n
    rw [clipAttempts]
    split
    · simp
    · split
      · simpa using ih (n + 1)
      · simpa using ih n

/-- The loop produces at most MAX_CLIPS − n further clips from success
count n. -/
theorem clipLoop_length_le (o : HeatmapSegment → ℕ → Bool) :
    ∀ (segments : List HeatmapSegment) (n : ℕ),
      (clipLoop o segments n).length ≤ MAX_CLIPS - n := by
  intro segments
  induction segments with
  | nil => intro n; simp [clipLoop]
  | cons s rest ih =>
    intro n
    rw [clipLoop]
    split
    · simp
    · rename_i hlt
      split
      · have := ih (n + 1)
        simp only [List.length_cons]
        omega
      · have := ih n
        omega

/-- The loop stops only for one of the two stated reasons: it either
consumes the whole candidate list or reaches exactly MAX_CLIPS successes. -/
theorem clipLoop_exhaust (o : HeatmapSegment → ℕ → Bool) :
    ∀ (segments : List HeatmapSegment) (n : ℕ), n ≤ MAX_CLIPS →
      clipAttempts o segments n = segments ∨
        n + (clipLoop o segments n).length = MAX_CLIPS := by
  intro segments
  induction segments with
  | nil => intro n _; left; simp [clipAttempts]
  | cons s rest ih =>
    intro n hn
    rw [clipAttempts, clipLoop]
    split
    · rename_i hge
      right
      simp only [List.length_nil]
      omega
    · rename_i hlt
      split
      · rcases ih (n + 1) (by omega) with h | h
        · left; simp [h]
        · right; simp only [List.length_cons]; omega
      · rcases ih n hn with h | h
        · left; simp [h]
        · right; exact h

/-- The descending-score comparator is transitive. -/
theorem scoreDescLe_trans (a b c : HeatmapSegment)
    (hab : scoreDescLe a b) (hbc : scoreDescLe b c) : scoreDescLe a c := by
  simp only [scoreDescLe, decide_eq_true_eq] at *
  exact le_trans hbc hab

/-- The descending-score comparator is total. -/
theorem scoreDescLe_total (a b : HeatmapSegment) :
    scoreDescLe a b || scoreDescLe b a := by
  simp only [scoreDescLe, Bool.or_eq_true, decide_eq_true_eq]
  exact le_total b.score a.score

/-- fetch_heatmap output is pairwise non-increasing in score. -/
theorem fetch_heatmap_sorted (markers : List RawMarker) :
    (fetch_heatmap markers).Pairwise (fun a b => b.score ≤ a.score) := by
  have h := @List.sorted_mergeSort HeatmapSegment scoreDescLe scoreDescLe_trans
    scoreDescLe_total (markers.filterMap markerToSegment)
  exact h.imp (by intro a b hab; simpa [scoreDescLe] using hab)

/-- Stability of the fetch_heatmap sort: for every score value, the segments
carrying that score appear in the output in the same order as in the
unsorted filtered list. -/
theorem fetch_heatmap_stable (markers : List RawMarker) (q : ℚ) :
    (fetch_heatmap markers).filter (fun s => decide (s.score = q))
      = (markers.filterMap markerToSegment).filter (fun s => decide (s.score = q)) := by
  set l := markers.filterMap markerToSegment with hl
  set p : HeatmapSegment → Bool := fun s => decide (s.score = q) with hp
  have hmem : ∀ x ∈ l.filter p, x.score = q := by
    intro x hx
    have := List.of_mem_filter hx
    simpa [hp] using this
  have hpw : (l.filter p).Pairwise (fun a b => scoreDescLe a b = true) := by
    apply List.pairwise_of_forall_mem_list
    intro a ha b hb
    simp only [scoreDescLe, decide_eq_true_eq]
    rw [hmem a ha, hmem b hb]
  have h1 : List.Sublist (l.filter p) (l.mergeSort scoreDescLe) :=
    List.sublist_mergeSort scoreDescLe_trans scoreDescLe_total hpw (List.filter_sublist l)
  have h2 : List.Sublist ((l.filter p).filter p) ((l.mergeSort scoreDescLe).filter p) :=
    h1.filter p
  have h3 : (l.filter p).filter p = l.filter p := by
    rw [List.filter_filter]
    apply List.filter_congr
    intro x _
    exact Bool.and_self (p x)
  rw [h3] at h2
  have h4 : ((l.mergeSort scoreDescLe).filter p).length = (l.filter p).length := by
    exact ((List.mergeSort_perm l scoreDescLe).filter p).length_eq
  exact (h2.eq_of_length h4.symm).symm

/-- C3: the segment list produced by fetch_heatmap is sorted non-increasing
by score, and the sort is stable: for every score value, the segments with
that score keep their original relative order. -/
theorem C3_sorted_and_stable (markers : List RawMarker) :
    (fetch_heatmap markers).Pairwise (fun a b => b.score ≤ a.score) ∧
    ∀ q : ℚ, (fetch_heatmap markers).filter (fun s => decide (s.score = q))
      = (markers.filterMap markerToSegment).filter (fun s => decide (s.score = q)) :=
  ⟨fetch_heatmap_sorted markers, fetch_heatmap_stable markers⟩

/-- C8: the candidate loop of full_process attempts candidates one at a
time, in ranked order (the attempted candidates are an initial prefix of
the ranked list, hence none attempted twice and their scores are
non-increasing); the returned file list has at most MAX_CLIPS entries; and
the loop runs until the candidate list is exhausted or exactly MAX_CLIPS
successes are produced (skips do not count toward the quota). -/
theorem C8_ranked_quota (o : HeatmapSegment → ℕ → Bool) (markers : List RawMarker) :
    clipAttempts o (fetch_heatmap markers) 0
      = (fetch_heatmap markers).take (clipAttempts o (fetch_heatmap markers) 0).length ∧
    (clipAttempts o (fetch_heatmap markers) 0).Pairwise (fun a b => b.score ≤ a.score) ∧
    (clipLoop o (fetch_heatmap markers) 0).length ≤ MAX_CLIPS ∧
    (clipAttempts o (fetch_heatmap markers) 0 = fetch_heatmap markers ∨
      (clipLoop o (fetch_heatmap markers) 0).length = MAX_CLIPS) := by
  refine ⟨clipAttempts_take o _ 0, ?_, ?_, ?_⟩
  · have hs := fetch_heatmap_sorted markers
    rw [clipAttempts_take o _ 0]
    exact hs.sublist (List.take_sublist _ _)
  · have := clipLoop_length_le o (fetch_heatmap markers) 0
    omega
  · have := clipLoop_exhaust o (fetch_heatmap markers) 0 (by norm_num [MAX_CLIPS])
    rcases this with h | h
    · exact Or.inl h
    · exact Or.inr (by omega)

/-- A produced segment always has an accepted score and a capped duration. -/
theorem markerToSegment_sound {marker : RawMarker} {seg : HeatmapSegment}
    (h : markerToSegment marker = some seg) :
    MIN_SCORE ≤ seg.score ∧ seg.duration ≤ MAX_DURATION := by
  simp only [markerToSegment] at h
  split at h
  · split at h
    · rename_i hsc
      injection h with h
      subst h
      exact ⟨hsc, min_le_right _ _⟩
    · exact absurd h (by simp)
  · exact absurd h (by simp)

/-- C2: every segment produced by fetch_heatmap has score at least
MIN_SCORE and duration at most MAX_DURATION; a marker whose three fields
are present and whose score passes the filter always yields a segment
(overlong durations are capped, never discarded); and a marker whose score
field is unparsable is dropped by itself without affecting the rest of the
batch (per-marker fallbacks, no batch failure). -/
theorem C2_filter_and_cap (markers : List RawMarker) :
    (∀ seg ∈ fetch_heatmap markers,
      MIN_SCORE ≤ seg.score ∧ seg.duration ≤ MAX_DURATION) ∧
    (∀ (marker : RawMarker) (sv dv scv : JsonVal),
      (markerData marker).startMillis = some sv →
      (markerData marker).durationMillis = some dv →
      (markerData marker).intensityScoreNormalized = some scv →
      MIN_SCORE ≤ (parse_val scv).getD 0 →
      (markerToSegment marker).isSome = true) ∧
    (∀ (bad : RawMarker) (rest : List RawMarker),
      (∀ scv, (markerData bad).intensityScoreNormalized = some scv → parse_val scv = none) →
      fetch_heatmap (bad :: rest) = fetch_heatmap rest) := by
  refine ⟨?_, ?_, ?_⟩
  · intro seg hseg
    rw [fetch_heatmap, List.mem_mergeSort] at hseg
    obtain ⟨marker, _, hm⟩ := List.mem_filterMap.mp hseg
    exact markerToSegment_sound hm
  · intro marker sv dv scv hs hd hv hsc
    simp only [markerToSegment]
    rw [hs, hd, hv]
    simp only [if_pos hsc, Option.isSome_some]
  · intro bad rest hbad
    have hnone : markerToSegment bad = none := by
      simp only [markerToSegment]
      split
      · rename_i sv dv scv heq1 heq2 heq3
        rw [hbad scv heq3]
        have : ¬ (MIN_SCORE ≤ ((none : Option ℚ).getD 0)) := by norm_num [MIN_SCORE]
        rw [if_neg this]
      · rfl
    rw [fetch_heatmap, fetch_heatmap, List.filterMap_cons_none hnone]

/-- Witness for C2_filter_and_cap: a marker with start 5000 ms, duration
120000 ms (capped to 60 s) and score 0.5 yields the segment (5, 60, 0.5),
which satisfies both bounds. -/
theorem C2_witness :
    MIN_SCORE ≤ (HeatmapSegment.mk 5 60 (1/2)).score ∧
    (HeatmapSegment.mk 5 60 (1/2)).duration ≤ MAX_DURATION := by
  have hfetch :
      fetch_heatmap [⟨none, ⟨some (.num 5000), some (.num 120000), some (.num (1/2))⟩⟩]
        = [⟨5, 60, 1/2⟩] := by
    norm_num [fetch_heatmap, markerToSegment, markerData, parse_val, MIN_SCORE, MAX_DURATION,
      List.filterMap]
  exact (C2_filter_and_cap
      [⟨none, ⟨some (.num 5000), some (.num 120000), some (.num (1/2))⟩⟩]).1
    ⟨5, 60, 1/2⟩ (hfetch ▸ List.mem_singleton.mpr rfl)

/-- Floor of a rational divided by a positive natural agrees with integer
division of its floor. -/
theorem floor_div_natCast (q : ℚ) (n : ℕ) (hn : 0 < n) :
    ⌊q / (n : ℚ)⌋ = ⌊q⌋ / (n : ℤ) := by
  have hn' : (0:ℚ) < (n:ℚ) := Nat.cast_pos.mpr hn
  have hnz : (n:ℤ) ≠ 0 := by exact_mod_cast hn.ne'
  have hz : (n:ℤ) * (⌊q⌋ / (n:ℤ)) + ⌊q⌋ % (n:ℤ) = ⌊q⌋ := Int.ediv_add_emod _ _
  have hr0 : 0 ≤ ⌊q⌋ % (n:ℤ) := Int.emod_nonneg _ hnz
  have hrn : ⌊q⌋ % (n:ℤ) < (n:ℤ) := Int.emod_lt_of_pos _ (by exact_mod_cast hn)
  have hfl : (⌊q⌋ : ℚ) ≤ q := Int.floor_le q
  have hfu : q < (⌊q⌋ : ℚ) + 1 := Int.lt_floor_add_one q
  refine Int.floor_eq_iff.mpr ⟨?_, ?_⟩
  · rw [le_div_iff₀ hn']
    have h1 : (n:ℤ) * (⌊q⌋ / (n:ℤ)) ≤ ⌊q⌋ := by linarith
    calc ((⌊q⌋ / (n:ℤ) : ℤ) : ℚ) * (n:ℚ) = (((n:ℤ) * (⌊q⌋ / (n:ℤ)) : ℤ) : ℚ) := by
          push_cast; ring
    _ ≤ ((⌊q⌋ : ℤ) : ℚ) := by exact_mod_cast h1
    _ ≤ q := hfl
  · rw [div_lt_iff₀ hn']
    have h2 : ⌊q⌋ + 1 ≤ (⌊q⌋ / (n:ℤ) + 1) * (n:ℤ) := by nlinarith
    calc q < (⌊q⌋ : ℚ) + 1 := hfu
    _ = ((⌊q⌋ + 1 : ℤ) : ℚ) := by push_cast; ring
    _ ≤ (((⌊q⌋ / (n:ℤ) + 1) * (n:ℤ) : ℤ) : ℚ) := by exact_mod_cast h2
    _ = (((⌊q⌋ / (n:ℤ) : ℤ) : ℚ) + 1) * (n:ℚ) := by push_cast; ring

/-- For non-negative seconds, format_ass_time agrees with the amended spec
serialization (truncated centiseconds). -/
theorem format_eq_spec_trunc (q : ℚ) (hq : 0 ≤ q) :
    format_ass_time q = format_time_spec_trunc q := by
  have e60 : ⌊q / (60:ℚ)⌋ = ⌊q⌋ / 60 := by
    have h := floor_div_natCast q 60 (by norm_num)
    simpa using h
  have e3600 : ⌊q / (3600:ℚ)⌋ = ⌊q⌋ / 3600 := by
    have h := floor_div_natCast q 3600 (by norm_num)
    simpa using h
  have hk : 0 ≤ ⌊q⌋ := Int.floor_nonneg.mpr hq
  have hm : ratToU32 (fmod q 3600 / 60) = (⌊q / (60:ℚ)⌋).toNat % 60 := by
    have e1 : fmod q 3600 / 60 = q / 60 - ((60 * ⌊q / (3600:ℚ)⌋ : ℤ) : ℚ) := by
      unfold fmod; push_cast; ring
    rw [ratToU32, e1, Int.floor_sub_int, e60, e3600]
    omega
  have hs : ratToU32 (fmod q 60) = (⌊q⌋).toNat % 60 := by
    have e1 : fmod q 60 = q - ((60 * ⌊q / (60:ℚ)⌋ : ℤ) : ℚ) := by
      unfold fmod; push_cast; ring
    rw [ratToU32, e1, Int.floor_sub_int, e60]
    omega
  have hcs : ratToU32 (fmod q 1 * 100) = (⌊(q - (⌊q⌋ : ℚ)) * 100⌋).toNat := by
    have e1 : fmod q 1 * 100 = (q - (⌊q⌋ : ℚ)) * 100 := by
      unfold fmod; rw [div_one]; ring
    rw [ratToU32, e1]
  have hh : ratToU32 (q / 3600) = (⌊q / (3600:ℚ)⌋).toNat := rfl
  simp only [format_ass_time, format_time_spec_trunc, format_time_of_cs, hm, hs, hcs, hh]

/-- Evaluation of format_ass_time at 3725.07 seconds. -/
theorem format_ex1 : format_ass_time (372507/100) = "1:02:05.07" := by
  have h1 : ratToU32 ((372507:ℚ)/100 / 3600) = 1 := by unfold ratToU32; norm_num
  have h2 : ratToU32 (fmod ((372507:ℚ)/100) 3600 / 60) = 2 := by
    unfold ratToU32 fmod; norm_num; decide
  have h3 : ratToU32 (fmod ((372507:ℚ)/100) 60) = 5 := by
    unfold ratToU32 fmod; norm_num; decide
  have h4 : ratToU32 (fmod ((372507:ℚ)/100) 1 * 100) = 7 := by
    unfold ratToU32 fmod; norm_num; decide
  rw [format_ass_time, h1, h2, h3, h4]; decide

/-- Evaluation of format_ass_time at 0 seconds. -/
theorem format_ex2 : format_ass_time 0 = "0:00:00.00" := by
  have h1 : ratToU32 ((0:ℚ) / 3600) = 0 := by unfold ratToU32; norm_num
  have h2 : ratToU32 (fmod (0:ℚ) 3600 / 60) = 0 := by unfold ratToU32 fmod; norm_num
  have h3 : ratToU32 (fmod (0:ℚ) 60) = 0 := by unfold ratToU32 fmod; norm_num
  have h4 : ratToU32 (fmod (0:ℚ) 1 * 100) = 0 := by unfold ratToU32 fmod; norm_num
  rw [format_ass_time, h1, h2, h3, h4]; decide

/-- Evaluation of format_ass_time at 1/128 s (a dyadic value, hence exact in
double precision): the fractional part is 0.0078125, 0.78125 centiseconds,
truncated to 0 by the `as u32` cast. -/
theorem format_ex3 : format_ass_time (1/128) = "0:00:00.00" := by
  have h1 : ratToU32 ((1:ℚ)/128 / 3600) = 0 := by unfold ratToU32; norm_num
  have h2 : ratToU32 (fmod ((1:ℚ)/128) 3600 / 60) = 0 := by unfold ratToU32 fmod; norm_num
  have h3 : ratToU32 (fmod ((1:ℚ)/128) 60) = 0 := by unfold ratToU32 fmod; norm_num
  have h4 : ratToU32 (fmod ((1:ℚ)/128) 1 * 100) = 0 := by unfold ratToU32 fmod; norm_num
  rw [format_ass_time, h1, h2, h3, h4]; decide

/-- Evaluation of the spec's rounded serialization at 1/128 s: round(0.78125)
is 1 centisecond. -/
theorem format_ex4 : format_time_spec_round (1/128) = "0:00:00.01" := by
  have h1 : (⌊(1:ℚ)/128 / 3600⌋).toNat = 0 := by norm_num
  have h2 : (⌊(1:ℚ)/128 / 60⌋).toNat % 60 = 0 := by norm_num
  have h3 : (⌊(1:ℚ)/128⌋).toNat % 60 = 0 := by norm_num
  have h4 : (round (((1:ℚ)/128 - ((⌊(1:ℚ)/128⌋ : ℤ) : ℚ)) * 100)).toNat = 1 := by
    norm_num [round_eq]
  rw [format_time_spec_round, format_time_of_cs, h1, h2, h3, h4]; decide

/-- Counterexample to C4 as stated: at 1/128 s (exact in f64) the code
truncates the 0.78125 centiseconds to "00", while centiseconds computed as
round(fractional_seconds*100), as the claim says, would give "01". -/
theorem C4_counterexample :
    format_ass_time (1/128) = "0:00:00.00" ∧
    format_time_spec_round (1/128) = "0:00:00.01" ∧
    format_ass_time (1/128) ≠ format_time_spec_round (1/128) := by
  refine ⟨format_ex3, format_ex4, ?_⟩
  rw [format_ex3, format_ex4]
  decide

/-- C4 (amended): format_ass_time serializes a non-negative seconds value as
H:MM:SS.cc with hours unpadded and minutes/seconds/centiseconds zero-padded
to two digits, with centiseconds computed by truncating
fractional_seconds*100 (not rounding); in particular
format_ass_time(3725.07) = "1:02:05.07" and
format_ass_time(0.0) = "0:00:00.00". -/
theorem C4_time_format (seconds : ℚ) (h : 0 ≤ seconds) :
    format_ass_time seconds = format_time_spec_trunc seconds ∧
    format_ass_time (372507/100) = "1:02:05.07" ∧
    format_ass_time 0 = "0:00:00.00" :=
  ⟨format_eq_spec_trunc seconds h, format_ex1, format_ex2⟩

/-- Witness for C4_time_format at 3725.07 seconds. -/
theorem C4_witness :
    (0:ℚ) ≤ 372507/100 ∧
    format_ass_time (372507/100) = format_time_spec_trunc (372507/100) :=
  ⟨by norm_num, (C4_time_format (372507/100) (by norm_num)).1⟩

/-- Head unfolding of the file lookup. -/
theorem fsGet_cons (e : String × String) (fs : FS) (name : String) :
    fsGet (e :: fs) name = if e.1 = name then some e.2 else fsGet fs name := by
  by_cases he : e.1 = name <;> simp [fsGet, List.find?, he]

/-- Head unfolding of the file removal. -/
theorem fsRemove_cons (e : String × String) (fs : FS) (name : String) :
    fsRemove (e :: fs) name
      = if e.1 = name then fsRemove fs name else e :: fsRemove fs name := by
  by_cases he : e.1 = name <;> simp [fsRemove, List.filter_cons, he]

/-- Removing one file leaves the others readable. -/
theorem fsGet_remove_ne (fs : FS) (name other : String) (h : other ≠ name) :
    fsGet (fsRemove fs name) other = fsGet fs other := by
  induction fs with
  | nil => rfl
  | cons e rest ih =>
    rw [fsRemove_cons, fsGet_cons]
    by_cases he : e.1 = name
    · rw [if_pos he, ih, if_neg (by rw [he]; exact fun hc => h hc.symm)]
    · rw [if_neg he, fsGet_cons, ih]

/-- Looking up a name that no entry of the list carries, after appending a
fresh entry with that name. -/
theorem fsGet_append_not_mem (l : FS) (name content : String)
    (h : ∀ e ∈ l, ¬ e.1 = name) :
    fsGet (l ++ [(name, content)]) name = some content := by
  induction l with
  | nil => simp [fsGet, List.find?]
  | cons e rest ih =>
    rw [List.cons_append, fsGet_cons, if_neg (h e (by simp))]
    exact ih (fun x hx => h x (by simp [hx]))

/-- Looking up the file just written. -/
theorem fsGet_write_self (fs : FS) (name content : String) :
    fsGet (fsWrite fs name content) name = some content := by
  apply fsGet_append_not_mem
  intro e he
  rw [fsRemove] at he
  have hmem := List.of_mem_filter he
  simpa using hmem

/-- Writing one file leaves the others readable. -/
theorem fsGet_write_ne (fs : FS) (name content other : String) (h : other ≠ name) :
    fsGet (fsWrite fs name content) other = fsGet fs other := by
  rw [fsWrite]
  have happ : fsGet (fsRemove fs name ++ [(name, content)]) other
      = fsGet (fsRemove fs name) other := by
    induction fsRemove fs name with
    | nil =>
      have : ¬ (name = other) := fun hc => h hc.symm
      simp [fsGet, List.find?, this]
    | cons e rest ih =>
      rw [List.cons_append, fsGet_cons, fsGet_cons]
      by_cases he : e.1 = other
      · rw [if_pos he, if_pos he]
      · rw [if_neg he, if_neg he, ih]
  rw [happ, fsGet_remove_ne fs name other h]

/-- C9: when subtitle generation fails or burn-in fails while the cropped
media exists, the candidate is still finalized and counted as a success
(process_clip returns true), and the final output file is the cropped media
unmodified by captioning — its contents are exactly the cropped file's
contents, moved to the output path; the failure is not propagated as an
error. -/
theorem C9_caption_degrade (fs : FS) (cropped_file output_file : String)
    (config : SubtitleConfigM) (index : ℕ) (o : SubOracle) (content : String)
    (henabled : config.enabled = true)
    (hcropped : fsGet fs cropped_file = some content)
    (hsub : cropped_file ≠ subFileName config index)
    (hfail : o.genResult = none ∨ o.burnOk = false) :
    (process_clip_finalize fs cropped_file output_file config index o).2 = true ∧
    fsGet (process_clip_finalize fs cropped_file output_file config index o).1 output_file
      = some content := by
  rcases hgen : o.genResult with _ | sub_content
  · have hr : fsRename fs cropped_file output_file
        = some (fsWrite (fsRemove fs cropped_file) output_file content) := by
      unfold fsRename; rw [hcropped]
    simp [process_clip_finalize, process_subtitle, henabled, hgen, hr, fsGet_write_self]
  · have hburn : o.burnOk = false := by
      rcases hfail with h | h
      · rw [hgen] at h; cases h
      · exact h
    have hc1 : fsGet (fsWrite fs (subFileName config index) sub_content) cropped_file
        = some content := by
      rw [fsGet_write_ne _ _ _ _ hsub]; exact hcropped
    have hc2 : fsGet (fsRemove (fsWrite fs (subFileName config index) sub_content)
          (subFileName config index)) cropped_file = some content := by
      rw [fsGet_remove_ne _ _ _ hsub]; exact hc1
    have hr : fsRename (fsRemove (fsWrite fs (subFileName config index) sub_content)
          (subFileName config index)) cropped_file output_file
        = some (fsWrite (fsRemove (fsRemove (fsWrite fs (subFileName config index) sub_content)
            (subFileName config index)) cropped_file) output_file content) := by
      unfold fsRename; rw [hc2]
    simp [process_clip_finalize, process_subtitle, henabled, hgen, hburn, hr, fsGet_write_self]

/-- Witness for C9_caption_degrade: one file system holding the cropped clip,
subtitles enabled with the whisper.cpp backend, generation failing. -/
theorem C9_witness :
    (process_clip_finalize [("temp_cropped_1.mp4", "CROPPED-MEDIA")] "temp_cropped_1.mp4"
        "clips/clip_1.mp4" ⟨true, .WhisperCpp⟩ 1 ⟨none, false, fun v _ => v⟩).2 = true ∧
    fsGet (process_clip_finalize [("temp_cropped_1.mp4", "CROPPED-MEDIA")] "temp_cropped_1.mp4"
        "clips/clip_1.mp4" ⟨true, .WhisperCpp⟩ 1 ⟨none, false, fun v _ => v⟩).1 "clips/clip_1.mp4"
      = some "CROPPED-MEDIA" :=
  C9_caption_degrade [("temp_cropped_1.mp4", "CROPPED-MEDIA")] "temp_cropped_1.mp4"
    "clips/clip_1.mp4" ⟨true, .WhisperCpp⟩ 1 ⟨none, false, fun v _ => v⟩ "CROPPED-MEDIA"
    rfl (by decide) (by decide) (Or.inl rfl)

/-- A string whose model of `is_empty` is false is not the empty string. -/
theorem strIsEmpty_false_ne {s : String} (h : strIsEmpty s = false) : s ≠ "" :=
  fun he => absurd (he ▸ h) (by decide)

/-- What passing the token filter guarantees about the text. -/
theorem keepToken_props {text : String} (h : keepToken text = true) :
    text ≠ "" ∧ startsWithChar text '[' = false ∧ startsWithChar text '<' = false := by
  simp only [keepToken, Bool.and_eq_true, Bool.not_eq_true'] at h
  exact ⟨strIsEmpty_false_ne h.1.1, h.1.2, h.2⟩

/-- Every word produced by a token-level path passed the token filter. -/
theorem tokenToWord_sound {token : WhisperToken} {w : TimedWord}
    (h : tokenToWord token = some w) : keepToken w.text = true := by
  simp only [tokenToWord] at h
  split at h
  · split at h
    · rename_i hkeep
      injection h with h
      subst h
      exact hkeep
    · exact absurd h (by simp)
  · split at h
    · split at h
      · rename_i hkeep
        injection h with h
        subst h
        exact hkeep
      · exact absurd h (by simp)
    · exact absurd h (by simp)

/-- Every word produced by the segment-level fallback is non-empty and does
not start with a bracket (this path does not test for an angle bracket). -/
theorem fallbackWords_sound {text t0 t1 : String} {w : TimedWord}
    (h : w ∈ fallbackWords text t0 t1) :
    w.text ≠ "" ∧ startsWithChar w.text '[' = false := by
  simp only [fallbackWords] at h
  split at h
  · obtain ⟨p, _, hw⟩ := List.mem_filterMap.mp h
    split at hw
    · rename_i hcond
      injection hw with hw
      subst hw
      simp only [Bool.and_eq_true, Bool.not_eq_true'] at hcond
      exact ⟨strIsEmpty_false_ne hcond.1, hcond.2⟩
    · exact absurd hw (by simp)
  · exact absurd h (by simp)

/-- Common guarantee of all parsing paths of one segment. -/
theorem segmentWords_sound {segment : WhisperSegment} {w : TimedWord}
    (h : w ∈ segmentWords segment) :
    w.text ≠ "" ∧ startsWithChar w.text '[' = false := by
  simp only [segmentWords] at h
  split at h
  · obtain ⟨token, _, hw⟩ := List.mem_filterMap.mp h
    have hk := keepToken_props (tokenToWord_sound hw)
    exact ⟨hk.1, hk.2.1⟩
  · split at h
    · exact fallbackWords_sound h
    · exact absurd h (by simp)

/-- On a segment that does have a tokens array, no produced word starts with
an angle bracket. -/
theorem segmentWords_no_angle {segment : WhisperSegment} (htok : segment.tokens ≠ none)
    {w : TimedWord} (h : w ∈ segmentWords segment) :
    startsWithChar w.text '<' = false := by
  rcases hts : segment.tokens with _ | tokens
  · exact absurd hts htok
  · simp only [segmentWords, hts] at h
    obtain ⟨token, _, hw⟩ := List.mem_filterMap.mp h
    exact (keepToken_props (tokenToWord_sound hw)).2.2

/-- C5 (amended): every word output by parse_whisper_json has text that is
non-empty (texts are stored trimmed) and does not begin with a bracket, on
every parsing path; words beginning with an angle bracket are additionally
excluded on the two token-level paths (so on a transcript whose segments
all carry token arrays, no output word starts with an angle bracket) — but
the segment-level fallback filters only emptiness and the bracket, so it
can emit words beginning with an angle bracket. -/
theorem C5_token_text_filter (transcription : List WhisperSegment) :
    (∀ w ∈ parse_whisper_json transcription,
      w.text ≠ "" ∧ startsWithChar w.text '[' = false) ∧
    ((∀ segment ∈ transcription, segment.tokens ≠ none) →
      ∀ w ∈ parse_whisper_json transcription, startsWithChar w.text '<' = false) := by
  constructor
  · intro w hw
    rw [parse_whisper_json] at hw
    obtain ⟨l, hl, hwl⟩ := List.mem_flatten.mp hw
    obtain ⟨segment, hseg, rfl⟩ := List.mem_map.mp hl
    exact segmentWords_sound hwl
  · intro htok w hw
    rw [parse_whisper_json] at hw
    obtain ⟨l, hl, hwl⟩ := List.mem_flatten.mp hw
    obtain ⟨segment, hseg, rfl⟩ := List.mem_map.mp hl
    exact segmentWords_no_angle (htok segment hseg) hwl

/-- Counterexample to C5 as stated: a transcript segment without a tokens
array whose text contains the recognizer noise token "<noise>" takes the
segment-level fallback, which only filters empties and bracket-initial
words, so the angle-bracket word appears in the output. -/
theorem C5_counterexample :
    (parse_whisper_json
      [{ tokens := none, text := some "<noise> hello",
         timestamps_from := some "00:00:01,000", timestamps_to := some "00:00:03,000" }]).map
      TimedWord.text = ["<noise>", "hello"] ∧
    startsWithChar "<noise>" '<' = true :=
  ⟨by decide, by decide⟩

/-- Evaluation used by the C5 witness: one token-level segment parses to one
clean word. -/
theorem C5_witness_eval :
    parse_whisper_json
      [{ tokens := some [⟨some "hello", some 100, some 200, none, none⟩],
         text := none, timestamps_from := none, timestamps_to := none }]
      = [⟨"hello", 1, 2⟩] := by
  have e1 : strTrim "hello" = "hello" := by decide
  have e2 : keepToken "hello" = true := by decide
  simp only [parse_whisper_json, segmentWords, List.map, List.flatten, List.filterMap,
    tokenToWord, e1, e2, if_true, List.append_nil]
  norm_num

/-- Witness for C5_token_text_filter at a concrete one-token transcript. -/
theorem C5_witness :
    (TimedWord.mk "hello" 1 2).text ≠ "" ∧
    startsWithChar (TimedWord.mk "hello" 1 2).text '[' = false :=
  (C5_token_text_filter
      [{ tokens := some [⟨some "hello", some 100, some 200, none, none⟩],
         text := none, timestamps_from := none, timestamps_to := none }]).1
    ⟨"hello", 1, 2⟩ (C5_witness_eval ▸ List.mem_singleton.mpr rfl)

/-- Character weight of a phrase extended by one word. -/
theorem phraseChars_append (xs : List TimedWord) (w : TimedWord) :
    phraseChars (xs ++ [w]) = phraseChars xs + (w.text.utf8ByteSize + 1) := by
  simp [phraseChars]

/-- Last text of a phrase extended by one word. -/
theorem lastText_concat (xs : List TimedWord) (w : TimedWord) :
    lastText (xs ++ [w]) = w.text := by
  simp [lastText, List.getLast?_concat]

/-- The accumulated phrase of a well-formed loop state has at most two
words (a third word would have fired the word-count break). -/
theorem stOk_current_len {st : GroupSt} (h : stOk st) : st.current.length ≤ 2 := by
  by_contra hc
  push_neg at hc
  have h3 := h.2 st.current.length (by omega) le_rfl
  apply h3
  rw [List.take_length]
  exact Or.inl (by omega)

/-- One loop iteration preserves the state invariant; it either leaves the
closed phrases unchanged or closes exactly the accumulated phrase extended
by the new word, and in the latter case that phrase is well formed; the
concatenation of everything is extended by exactly the new word. -/
theorem groupStep_ok (st : GroupSt) (w : TimedWord) (h : stOk st) :
    stOk (groupStep st w) ∧
    ((groupStep st w).phrases = st.phrases ∨
      ((groupStep st w).phrases = st.phrases ++ [st.current ++ [w]] ∧
        phraseOk (st.current ++ [w]))) ∧
    (groupStep st w).phrases.flatten ++ (groupStep st w).current
      = st.phrases.flatten ++ (st.current ++ [w]) := by
  have hchars : st.chars + w.text.utf8ByteSize + 1 = phraseChars (st.current ++ [w]) := by
    rw [phraseChars_append, h.1]
    omega
  simp only [groupStep]
  split
  · rename_i hcond
    refine ⟨⟨rfl, ?_⟩, Or.inr ⟨rfl, ?_⟩, ?_⟩
    · intro k hk hk2
      simp only [List.length_nil] at hk2
      omega
    · have hlen : st.current.length ≤ 2 := stOk_current_len h
      have hclose : phraseCloseCond (st.current ++ [w]) := by
        rcases hcond with h3 | h20 | hp
        · exact Or.inl h3
        · refine Or.inr (Or.inl ?_)
          rw [← hchars]
          exact h20
        · refine Or.inr (Or.inr ?_)
          rw [lastText_concat]
          exact hp
      refine ⟨by simp, ?_, hclose, ?_⟩
      · simp only [List.length_append, List.length_singleton]
        omega
      · intro k hk hklt
        have hkle : k ≤ st.current.length := by
          simp only [List.length_append, List.length_singleton] at hklt
          omega
        rw [List.take_append_of_le_length hkle]
        exact h.2 k hk hkle
    · simp
  · rename_i hcond
    push_neg at hcond
    refine ⟨⟨hchars, ?_⟩, Or.inl rfl, rfl⟩
    intro k hk hkle
    by_cases hksm : k ≤ st.current.length
    · rw [List.take_append_of_le_length hksm]
      exact h.2 k hk hksm
    · have hkeq : k = (st.current ++ [w]).length := by
        simp only [List.length_append, List.length_singleton] at hkle ⊢
        omega
      rw [hkeq, List.take_length]
      intro hclose
      rcases hclose with h3 | h20 | hp
      · omega
      · rw [← hchars] at h20
        omega
      · rw [lastText_concat] at hp
        exact hcond.2.2 hp

/-- Folding the loop over any word list preserves the invariants and
appends exactly the consumed words to the total content. -/
theorem foldl_groupStep_ok (words : List TimedWord) :
    ∀ st : GroupSt, stOk st → (∀ p ∈ st.phrases, phraseOk p) →
      stOk (words.foldl groupStep st) ∧
      (∀ p ∈ (words.foldl groupStep st).phrases, phraseOk p) ∧
      (words.foldl groupStep st).phrases.flatten ++ (words.foldl groupStep st).current
        = st.phrases.flatten ++ st.current ++ words := by
  induction words with
  | nil =>
    intro st h1 h2
    simpa using ⟨h1, h2⟩
  | cons w ws ih =>
    intro st h1 h2
    obtain ⟨hst, hph, hfl⟩ := groupStep_ok st w h1
    have h2' : ∀ p ∈ (groupStep st w).phrases, phraseOk p := by
      rcases hph with he | ⟨he, hok⟩
      · rw [he]; exact h2
      · rw [he]
        intro p hp
        rcases List.mem_append.mp hp with hp | hp
        · exact h2 p hp
        · rw [List.mem_singleton.mp hp]
          exact hok
    obtain ⟨ha, hb, hc⟩ := ih (groupStep st w) hst h2'
    refine ⟨ha, hb, ?_⟩
    rw [List.foldl_cons, hc, hfl]
    simp

/-- C6: the phrase grouping pass in generate_ass_with_word_highlight
partitions its input — concatenating the phrases in order yields the input
word sequence, so every word lands in exactly one phrase; every phrase is
non-empty (a non-empty trailing partial phrase is emitted) and has at most
3 words; every phrase that was closed by the loop satisfies the break
condition (3 words reached, accumulated character count of text length + 1
per word at least 20, or last word ending in break punctuation); and a
phrase is closed as soon as the condition fires: no proper non-empty prefix
of any phrase satisfies it. -/
theorem C6_phrase_grouping (words : List TimedWord) :
    (groupIntoPhrases words).flatten = words ∧
    (∀ p ∈ groupIntoPhrases words, p ≠ [] ∧ p.length ≤ 3) ∧
    (∀ p ∈ (groupIntoPhrases words).dropLast, phraseCloseCond p) ∧
    (∀ p ∈ groupIntoPhrases words, ∀ k, 0 < k → k < p.length →
      ¬ phraseCloseCond (p.take k)) := by
  have hinit : stOk ⟨[], [], 0⟩ := by
    refine ⟨rfl, ?_⟩
    intro k hk hk2
    simp only [List.length_nil] at hk2
    omega
  obtain ⟨hst, hph, hfl⟩ := foldl_groupStep_ok words ⟨[], [], 0⟩ hinit (by simp)
  simp only [groupIntoPhrases]
  set st := words.foldl groupStep ⟨[], [], 0⟩ with hstdef
  simp only [List.flatten_nil, List.nil_append] at hfl
  by_cases hcur : st.current.isEmpty
  · rw [if_pos hcur]
    have hcur' : st.current = [] := List.isEmpty_iff.mp hcur
    rw [hcur', List.append_nil] at hfl
    refine ⟨hfl, ?_, ?_, ?_⟩
    · intro p hp
      obtain ⟨h1, h2, _, _⟩ := hph p hp
      exact ⟨h1, h2⟩
    · intro p hp
      exact (hph p ((List.dropLast_sublist _).subset hp)).2.2.1
    · intro p hp k hk hklt
      exact (hph p hp).2.2.2 k hk hklt
  · rw [if_neg hcur]
    have hcur' : st.current ≠ [] := by
      intro he
      rw [he] at hcur
      exact hcur rfl
    refine ⟨?_, ?_, ?_, ?_⟩
    · rw [List.flatten_append]
      simpa using hfl
    · intro p hp
      rcases List.mem_append.mp hp with hp | hp
      · obtain ⟨h1, h2, _, _⟩ := hph p hp
        exact ⟨h1, h2⟩
      · rw [List.mem_singleton.mp hp]
        exact ⟨hcur', le_trans (stOk_current_len hst) (by omega)⟩
    · rw [List.dropLast_concat]
      intro p hp
      exact (hph p hp).2.2.1
    · intro p hp k hk hklt
      rcases List.mem_append.mp hp with hp | hp
      · exact (hph p hp).2.2.2 k hk hklt
      · rw [List.mem_singleton.mp hp] at hklt ⊢
        exact hst.2 k hk (by omega)

/-- Witness for C6_phrase_grouping on a one-word input. -/
theorem C6_witness :
    ([⟨"hi", 0, 1⟩] : List TimedWord) ≠ [] ∧
    ([⟨"hi", 0, 1⟩] : List TimedWord).length ≤ 3 :=
  (C6_phrase_grouping [⟨"hi", 0, 1⟩]).2.1 [⟨"hi", 0, 1⟩] (by decide)

end YtClipper
